import Mathlib

/-!
Verification development for the bBot conversational-agent runtime.

The definitions below are a shallow embedding of the repository's core:
the thought-process pipeline (`Thought.process`, the `receive` sequence
wiring from the `Thoughts` constructor, `thought.receive` with dialogue
progression), the Rocket.Chat message adapter's `respond` for the
`reply` method, and the Mongo storage adapter's `find` / `findOne` /
`saveMemory` / `loadMemory`.

Stateful TypeScript is embedded as explicit state passing over `BState`
(the `b` state object threaded through one pipeline run).  Awaited
sequential code becomes sequential function composition; promise
`resolve` / `reject` outcomes become the `acted : Option Bool` field of
a `ThoughtRes` (`none` when the process returned before running its
action, i.e. on `state.exit`).  Collaborator classes that live outside
the repository snapshot (Branch, Path, the user directory, the dialogue
registry, the NLU normaliser, the User class) are modelled from the
specification; each such definition says so in its doc comment.
-/

namespace BBot

/-- Modelled from the spec: User identity record (spec section 3 "User /
Room": stable `id`, optional `name`; the Rocket.Chat adapter also reads a
`username`).  The User class itself is not under `src/`. -/
structure User where
  id : String
  username : String := ""
  name : Option String := none
  deriving Repr, DecidableEq

/-- Modelled from the spec: normalised NLU result attached to a Text
message (`nlu.create().addResults(raw)`); the nlu module is not under
`src/`, so the normaliser is modelled as a wrapper around the raw
provider result keys. -/
structure NluResult where
  results : List String
  deriving Repr, DecidableEq

/-- Message variants (spec section 3); `text` may carry an `nlu` result
added by the understand stage; `catchAll` wraps an original message. -/
inductive Message where
  | text (user : User) (body : String) (mid : String) (nlu : Option NluResult)
  | enter (user : User) (mid : String)
  | leave (user : User) (mid : String)
  | rich (user : User) (mid : String)
  | server (user : User) (mid : String)
  | catchAll (original : Message)
  deriving Repr, DecidableEq

/-- The `user` reference carried by every message (a CatchAll delegates
to the wrapped original). -/
def Message.muser : Message → User
  | .text u _ _ _ => u
  | .enter u _ => u
  | .leave u _ => u
  | .rich u _ => u
  | .server u _ => u
  | .catchAll m => m.muser

/-- Outbound envelope as far as the state object tracks it: a dispatched
envelope carries a `responded` timestamp (spec section 3 "State",
`dispatchedEnvelope()`). -/
structure Envelope where
  eid : String := ""
  strings : List String := []
  responded : Option Nat := none
  deriving Repr, DecidableEq

/-- The state object threaded through one pipeline run (`b` in the
source).  `added` records the ids of branches that callbacks add to the
engaged dialogue's fresh path during the run (modelled from the spec's
dialogue progression, section 4.5). -/
structure BState where
  message : Option Message := none
  envelopes : List Envelope := []
  processed : List (String × Nat) := []
  matched : Bool := false
  done : Bool := false
  exit : Bool := false
  branch : Option String := none
  userDir : List (String × User) := []
  added : List String := []
  deriving Repr, DecidableEq

/-- `state.finish()` sets `done`. -/
def BState.finish (b : BState) : BState := { b with done := true }

/-- `state.dispatchedEnvelope()`: some envelope in the outbound queue was
dispatched (has a `responded` timestamp).  Modelled from the spec
(section 3, State helpers); state.ts is not under `src/`. -/
def BState.dispatchedEnvelope (b : BState) : Bool :=
  b.envelopes.any (fun e => e.responded.isSome)

/-- `state.create({ message })`: fresh state for an inbound run. -/
def stateCreate (msg : Message) : BState := { message := some msg }

/-- Modelled from the spec: a Branch (section 4.2; branch.ts is not under
`src/`): matcher plus callback.  On a match `branch.process` sets
`matched`, records the branch, then runs the callback (middleware
short-circuit is absorbed into the callback, which is an arbitrary state
transformer). -/
structure Branch where
  id : String
  matcher : BState → Bool
  callback : BState → BState
  force : Bool := false

/-- Modelled from the spec: `branch.process(state, middleware)`
(section 4.2): no match leaves the state untouched; a match sets
`state.matched` and `state.branch` before the callback runs. -/
def Branch.process (br : Branch) (b : BState) : BState :=
  if br.matcher b then br.callback { b with matched := true, branch := some br.id }
  else b

/-- Modelled from the spec: a Path groups insertion-ordered branch
collections per stage (section 3; path.ts is not under `src/`). -/
structure Path where
  listen : List Branch := []
  understand : List Branch := []
  serve : List Branch := []
  act : List Branch := []

/-- Modelled from the spec: `path.hasBranches()`. -/
def Path.hasBranches (p : Path) : Bool :=
  !(p.listen.isEmpty && p.understand.isEmpty && p.serve.isEmpty && p.act.isEmpty)

/-- Modelled from the spec: `path.forced('understand')` collapses the
understand collection to its force-marked branches (section 4.5). -/
def Path.forcedUnderstand (p : Path) : Path :=
  { p with understand := p.understand.filter (fun br => br.force) }

/-- A middleware pipeline, reduced to its observable contract for one
stage run: the state after the pieces ran and whether the chain
completed (every piece called `next`, so the terminal ran). -/
abbrev Middleware := BState → BState × Bool

/-- Replace the value stored under a key in an association list (used
for the falsy-timestamp overwrite path of `processed[name] = now`). -/
def assocSetNat (k : String) (v : Nat) : List (String × Nat) → List (String × Nat)
  | [] => [(k, v)]
  | p :: rest => if p.1 = k then (k, v) :: rest else p :: assocSetNat k v rest

/-- `if (!this.b.processed[this.name]) this.b.processed[this.name] = Date.now()`
(thought.ts line 121): the timestamp is written only when the slot is
falsy (absent, or the JS-falsy value 0). -/
def stamp (name : String) (now : Nat) (b : BState) : BState :=
  match b.processed.lookup name with
  | none => { b with processed := (name, now) :: b.processed }
  | some t => if t = 0 then { b with processed := assocSetNat name now b.processed } else b

/-- One thought process (thought.ts `Thought`): name, validate, action,
optional branch collection, middleware. -/
structure Thought where
  name : String
  validate : BState → BState × Bool := fun b => (b, true)
  action : Bool → BState → BState := fun _ b => b
  branches : Option (List Branch) := none
  middleware : Middleware := fun b => (b, true)

/-- The branch loop of `Thought.process` (thought.ts lines 109-112):
iterate the insertion-ordered branches, breaking as soon as
`state.done`; also returns the ids of the branches actually processed,
in order. -/
def processBranches : List Branch → BState → BState × List String
  | [], b => (b, [])
  | br :: rest, b =>
    if b.done then (b, [])
    else
      let r := processBranches rest (br.process b)
      (r.1, br.id :: r.2)

/-- Outcome of one `Thought.process` run: final state, the boolean the
action was called with (`none` when the process returned on
`state.exit` without running the action), and the ids of the branches
that were processed. -/
structure ThoughtRes where
  state : BState
  acted : Option Bool
  trace : List String

/-- `Thought.process` (thought.ts lines 82-131): return at once on
`state.exit`; with a branch collection, skip (action(false)) when it is
empty or `state.done` already holds; then validate; without branches run
the middleware (success iff the chain completed); with branches run the
branch loop (success iff `state.matched` afterwards); on success stamp
`processed[name]` and run action(true), on failure run action(false). -/
def Thought.process (t : Thought) (now : Nat) (b : BState) : ThoughtRes :=
  if b.exit then ⟨b, none, []⟩
  else
    match t.branches with
    | some brs =>
      if brs.length == 0 then ⟨t.action false b, some false, []⟩
      else if b.done then ⟨t.action false b, some false, []⟩
      else
        let v := t.validate b
        if v.2 then
          let pr := processBranches brs v.1
          if pr.1.matched then ⟨t.action true (stamp t.name now pr.1), some true, pr.2⟩
          else ⟨t.action false pr.1, some false, pr.2⟩
        else ⟨t.action false v.1, some false, []⟩
    | none =>
      let v := t.validate b
      if v.2 then
        let m := t.middleware v.1
        if m.2 then ⟨t.action true (stamp t.name now m.1), some true, []⟩
        else ⟨t.action false m.1, some false, []⟩
      else ⟨t.action false v.1, some false, []⟩

/-- An NLU adapter: `process` returns the raw provider result, `none`
standing for a null result, and an empty key list for an empty result. -/
structure NluAdapter where
  process : Message → Option (List String)

/-- The configured collaborators and settings the receive sequence
consults: optional NLU adapter, whether a storage adapter exists, and
the `nlu-min-length` setting. -/
structure Config where
  nluAdapter : Option NluAdapter := none
  storage : Bool := false
  nluMinLength : Option Nat := none

/-- Modelled from the spec: `nlu.create().addResults(raw)` normalises a
raw provider result (the nlu module is not under `src/`). -/
def nluAddResults (raw : List String) : NluResult := ⟨raw⟩

/-- JS `String.prototype.trim`: drop whitespace from both ends
(structurally recursive so that concrete inputs evaluate). -/
def trimStr (s : String) : String :=
  String.mk (((s.data.dropWhile Char.isWhitespace).reverse.dropWhile Char.isWhitespace).reverse)

/-- JS truthiness of the `nlu-min-length` guard (thought.ts lines
195-198): the length check only applies when the setting is present and
non-zero. -/
def minLenBlocks (setting : Option Nat) (len : Nat) : Bool :=
  match setting with
  | none => false
  | some n => (n != 0) && (len < n)

/-- `Thoughts.processes.understand.validate` (thought.ts lines 188-211):
requires an NLU adapter, a Text message, non-empty trimmed text, the
min-length guard, and a non-empty raw NLU result; on success attaches
the normalised result to `message.nlu`. -/
def understandValidate (cfg : Config) (b : BState) : BState × Bool :=
  match cfg.nluAdapter with
  | none => (b, false)
  | some ad =>
    match b.message with
    | some (Message.text u body mid n0) =>
      if trimStr body = "" then (b, false)
      else if minLenBlocks cfg.nluMinLength (trimStr body).length then (b, false)
      else
        match ad.process (Message.text u body mid n0) with
        | none => (b, false)
        | some raw =>
          if raw.isEmpty then (b, false)
          else ({ b with message := some (Message.text u body mid (some (nluAddResults raw))) }, true)
    | _ => (b, false)

/-- `Thoughts.processes.act.validate` (thought.ts lines 214-218): false
when a branch already matched; otherwise wrap the message (when present)
in a CatchAll and return true. -/
def actValidate (b : BState) : BState × Bool :=
  if b.matched then (b, false)
  else
    match b.message with
    | some m => ({ b with message := some (Message.catchAll m) }, true)
    | none => (b, true)

/-- Modelled from the spec: `user.byId(id, data)` updates the user
directory entry for that id (section 3 "User / Room"; user.ts is not
under `src/`). -/
def userById (uid : String) (u : User) : List (String × User) → List (String × User)
  | [] => [(uid, u)]
  | p :: rest => if p.1 = uid then (uid, u) :: rest else p :: userById uid u rest

/-- `Thoughts.processes.remember.validate` (thought.ts lines 242-252):
when matched, first update the user directory with the message's user;
then require a storage adapter and either a match or a dispatched
envelope. -/
def rememberValidate (cfg : Config) (b : BState) : BState × Bool :=
  let b1 :=
    if b.matched then
      match b.message with
      | some m => { b with userDir := userById (Message.muser m).id (Message.muser m) b.userDir }
      | none => b
    else b
  if !cfg.storage then (b1, false)
  else if !b.matched && !b1.dispatchedEnvelope then (b1, false)
  else (b1, true)

/-- The `hear` process as wired by the `Thoughts` constructor
(thought.ts lines 168, 178-180): no branches, default validate, and an
action that calls `state.finish()` on failure. -/
def hearThought (mw : Middleware) : Thought :=
  { name := "hear", middleware := mw,
    action := fun success b => if success then b else b.finish }

/-- The `listen` process (thought.ts line 169): the path's listen
branches; its path-forcing action is applied by the sequence runner. -/
def listenThought (brs : List Branch) : Thought :=
  { name := "listen", branches := some brs }

/-- The `understand` process (thought.ts lines 170, 188-211). -/
def understandThought (cfg : Config) (brs : List Branch) : Thought :=
  { name := "understand", branches := some brs, validate := understandValidate cfg }

/-- The `act` process (thought.ts lines 172, 214-218). -/
def actThought (brs : List Branch) : Thought :=
  { name := "act", branches := some brs, validate := actValidate }

/-- The `remember` process (thought.ts lines 174, 242-252); its
storage-keeping action has no effect on the run state. -/
def rememberThought (cfg : Config) (mw : Middleware) : Thought :=
  { name := "remember", middleware := mw, validate := rememberValidate cfg }

/-- The outcome of the `receive` sequence: final state, the result of
each stage in order, and the path after the listen action possibly
forced the understand collection. -/
structure ReceiveTrace where
  final : BState
  hearRes : ThoughtRes
  listenRes : ThoughtRes
  understandRes : ThoughtRes
  actRes : ThoughtRes
  rememberRes : ThoughtRes
  pathAfter : Path

/-- `Thoughts.start('receive')` with the constructor wiring (thought.ts
lines 142-268): run hear, listen, understand, act, remember serially;
after a successful listen, `path.forced('understand')` restricts the
understand branches to the force-marked ones. -/
def Thoughts.startReceive (cfg : Config) (mwHear mwRemember : Middleware)
    (now : Nat) (p : Path) (b0 : BState) : ReceiveTrace :=
  let r1 := (hearThought mwHear).process now b0
  let r2 := (listenThought p.listen).process now r1.state
  let p1 := if r2.acted == some true then p.forcedUnderstand else p
  let r3 := (understandThought cfg p1.understand).process now r2.state
  let r4 := (actThought p1.act).process now r3.state
  let r5 := (rememberThought cfg mwRemember).process now r4.state
  ⟨r5.state, r1, r2, r3, r4, r5, p1⟩

/-- What happened to an engaged dialogue after a receive run:
`revertPath()` restored the previous path, `close()` removed the
dialogue, or the dialogue was left engaged with the fresh path. -/
inductive DlgOutcome where
  | reverted
  | closed
  | engagedKept
  deriving Repr, DecidableEq

/-- Result of `thought.receive`: the run plus the dialogue outcome (when
the audience was engaged in a dialogue). -/
structure ReceiveOut where
  run : ReceiveTrace
  dialogue : Option DlgOutcome

/-- `thought.receive` (thought.ts lines 282-294): create the state; when
a dialogue is engaged, progress its path (the current dialogue path is
the one processed, and a fresh empty path collects branches added by
callbacks — recorded in `state.added`); run the receive sequence; then,
per the source, call `revertPath()` when nothing matched, and otherwise
call `close()` exactly when the fresh path has branches. -/
def thought.receive (cfg : Config) (mwHear mwRemember : Middleware) (now : Nat)
    (globalPath : Path) (dlgPath : Option Path) (msg : Message) : ReceiveOut :=
  let b0 := stateCreate msg
  match dlgPath with
  | none => ⟨Thoughts.startReceive cfg mwHear mwRemember now globalPath b0, none⟩
  | some dpath =>
    let r := Thoughts.startReceive cfg mwHear mwRemember now dpath b0
    let freshHasBranches := !r.final.added.isEmpty
    let outcome :=
      if r.final.matched = false then DlgOutcome.reverted
      else if freshHasBranches then DlgOutcome.closed
      else DlgOutcome.engagedKept
    ⟨r, some outcome⟩

/-- Whether `needle` occurs as a contiguous run inside `hay`
(`hay.indexOf(needle) !== -1` in the source). -/
def containsSub (needle : List Char) : List Char → Bool
  | [] => needle.isEmpty
  | c :: rest => needle.isPrefixOf (c :: rest) || containsSub needle rest

/-- The envelope fields the Rocket.Chat adapter's `reply` branch reads:
`strings`, `user` and `room.id` (absent strings or user, or a falsy
room id, make the adapter throw). -/
structure RCEnvelope where
  strings : Option (List String) := none
  user : Option User := none
  roomId : String := ""

/-- Result of a `reply` dispatch: the final value of `envelope.strings`
and the ordered payloads actually passed to `sdk.driver.sendToRoomId`. -/
structure RCReply where
  strings : List String
  sent : List String
  deriving Repr, DecidableEq

/-- `Rocketchat.respond`, `case 'reply'` (part_000 lines 100-110):
after the guards, when the room id does not contain the user id every
string is rewritten with an `@username ` prefix; then the
`for (let text in envelope.strings)` loop iterates the KEYS of the
array, so the values passed to `sendToRoomId` are the decimal index
strings, one per element.  `none` models a thrown guard error. -/
def Rocketchat.respondReply (e : RCEnvelope) : Option RCReply :=
  match e.strings with
  | none => none
  | some strs =>
    match e.user with
    | none => none
    | some u =>
      if e.roomId = "" then none
      else
        let strs1 :=
          if containsSub u.id.toList e.roomId.toList then strs
          else strs.map (fun s => "@" ++ u.username ++ " " ++ s)
        some ⟨strs1, (List.range strs1.length).map (fun i => toString i)⟩

/-- Shallow JSON-ish values stored in Mongo list elements. -/
inductive Val where
  | str (s : String)
  | num (n : Int)
  | boolean (b : Bool)
  | null
  deriving Repr, DecidableEq

/-- A stored list element (a JS object, insertion-ordered keys). -/
abbrev Item := List (String × Val)

/-- `item[key]` (undefined when the key is absent). -/
def itemGet (item : Item) (k : String) : Option Val := item.lookup k

/-- Mongo `$elemMatch` semantics over one element: every parameter key
is present and strictly equal. -/
def elemMatchAll (params : Item) (item : Item) : Bool :=
  params.all (fun kv => itemGet item kv.1 == some kv.2)

/-- The local filter predicate of `Mongo.find` (mongo.ts lines 126-130):
`let match = false; for (let key in params) match = (item[key] === params[key])`
— each iteration overwrites `match`, so only the last parameter key
decides (and empty params leave it false). -/
def mongoFilterMatch (params : Item) (item : Item) : Bool :=
  params.foldl (fun _ kv => itemGet item kv.1 == some kv.2) false

/-- `Mongo.find` (mongo.ts lines 119-132): the DB query
`{ sub, data: { $elemMatch: params }, type: 'store' }` finds the
sub-collection document only if some element matches all params
(otherwise `undefined` is returned); the document's list is then
filtered with `mongoFilterMatch`. -/
def Mongo.find (stored : List Item) (params : Item) : Option (List Item) :=
  if stored.any (elemMatchAll params) then some (stored.filter (mongoFilterMatch params))
  else none

/-- `Mongo.findOne` (mongo.ts lines 135-143): the `data.$` projection
returns the first element matching `$elemMatch: params`, or `undefined`
when no element matches. -/
def Mongo.findOne (stored : List Item) (params : Item) : Option Item :=
  stored.find? (fun it => elemMatchAll params it)

/-- A memory sub-collection payload: the `users` sub holds a mapping
from user id to user record; any other payload is opaque. -/
inductive MemVal where
  | users (m : List (String × User))
  | plain (v : Val)
  deriving Repr, DecidableEq

/-- Modelled from the spec: `new this.bot.User(record)` rehydrates a
stored user record into a user object (spec section 6: "the key `users`
is a mapping userId → user record that the core rehydrates into user
objects"); the User class is not under `src/`, and on a user record the
constructor reproduces the same identity fields. -/
def userCreate (rec : User) : User := rec

/-- Upsert of `findOneAndUpdate({ sub, type: 'memory' }, { data }, { upsert })`
on the memory document store keyed by sub-collection name. -/
def memUpsert (k : String) (v : MemVal) : List (String × MemVal) → List (String × MemVal)
  | [] => [(k, v)]
  | p :: rest => if p.1 = k then (k, v) :: rest else p :: memUpsert k v rest

/-- `Mongo.saveMemory` (mongo.ts lines 72-81): upsert one memory
document per sub-collection of the data mapping, in iteration order. -/
def Mongo.saveMemory (data : List (String × MemVal)) (db : List (String × MemVal)) :
    List (String × MemVal) :=
  data.foldl (fun acc kv => memUpsert kv.1 kv.2 acc) db

/-- The per-document rebuild step of `loadMemory` (mongo.ts lines
92-101): the `users` sub is rebuilt entry by entry through the User
constructor; every other sub is passed through unchanged. -/
def rehydrate (kv : String × MemVal) : String × MemVal :=
  if kv.1 = "users" then
    match kv.2 with
    | .users m => (kv.1, .users (m.map (fun p => (p.1, userCreate p.2))))
    | .plain v => (kv.1, .plain v)
  else kv

/-- `Mongo.loadMemory` (mongo.ts lines 84-103): read every memory
document and rebuild the mapping sub → payload. -/
def Mongo.loadMemory (db : List (String × MemVal)) : List (String × MemVal) :=
  db.map rehydrate

/-- One step of the branch loop, foldl-shaped. -/
def branchStep (b : BState) (br : Branch) : BState := br.process b

/-- How many branches the loop evaluates before breaking on
`state.done` (all of them when `done` never turns true). -/
def stopLen : List Branch → BState → Nat
  | [], _ => 0
  | br :: rest, b => if b.done then 0 else stopLen rest (br.process b) + 1

/- Concrete inputs used by the closed evaluation and witness theorems. -/

/-- A sample user. -/
def userW : User := { id := "u1", username := "tester" }

/-- A sample non-text inbound message. -/
def msgEnterW : Message := Message.enter userW "m1"

/-- A sample text inbound message. -/
def msgTextW : Message := Message.text userW "hello" "m2" none

/-- A middleware chain that completes untouched. -/
def mwOk : Middleware := fun b => (b, true)

/-- A middleware chain that short-circuits (a piece called `done`). -/
def mwFail : Middleware := fun b => (b, false)

/-- A configuration with no adapters at all. -/
def cfgNone : Config := {}

/-- A configuration with a storage adapter only. -/
def cfgStore : Config := { storage := true }

/-- An NLU adapter whose raw result is always the single key `intent`. -/
def nluAdapterW : NluAdapter := { process := fun _ => some ["intent"] }

/-- A configuration with the sample NLU adapter. -/
def cfgNlu : Config := { nluAdapter := some nluAdapterW }

/-- A dialogue listen branch that matches anything and whose callback
adds one follow-up branch to the fresh dialogue path. -/
def brMatchAdd : Branch :=
  { id := "dlg_1", matcher := fun _ => true,
    callback := fun b => { b with added := ["follow_1"] } }

/-- A dialogue listen branch that matches anything and adds nothing. -/
def brMatchOnly : Branch :=
  { id := "dlg_1", matcher := fun _ => true, callback := fun b => b }

/-- Dialogue path whose matching branch adds a follow-up branch. -/
def dpathAdd : Path := { listen := [brMatchAdd] }

/-- Dialogue path whose matching branch adds nothing. -/
def dpathNoAdd : Path := { listen := [brMatchOnly] }

/-- Dialogue path with no branches at all (nothing can match). -/
def dpathEmpty : Path := {}

/-- The reply envelope of the C7 failing input: the room id does not
contain the user id. -/
def rcEnvW : RCEnvelope :=
  { strings := some ["hello"], user := some userW, roomId := "GENERAL" }

/-- A reply envelope whose room id embeds the user id (direct room). -/
def rcEnvDMW : RCEnvelope :=
  { strings := some ["hello"], user := some userW, roomId := "u1u2pair" }

/-- Stored element matching both parameter keys of `paramsAB`. -/
def itemAB1 : Item := [("a", Val.num 1), ("b", Val.num 2)]

/-- Stored element differing from `paramsAB` on key `a`, equal on `b`. -/
def itemAB9 : Item := [("a", Val.num 9), ("b", Val.num 2)]

/-- Two-key parameter mapping for the C8 failing input. -/
def paramsAB : Item := [("a", Val.num 1), ("b", Val.num 2)]

/-- A memory mapping with a `users` sub and an opaque sub. -/
def memW : List (String × MemVal) :=
  [("users", MemVal.users [("u1", { id := "u1", username := "tester" })]),
   ("notes", MemVal.plain (Val.str "hi"))]

/-- A stage used by witnesses: one always-matching branch. -/
def brW6 : Branch := { id := "b1", matcher := fun _ => true, callback := fun b => b }

/-- A branch-bearing thought for the C6 witness. -/
def thoughtW6 : Thought := { name := "stage6", branches := some [brW6] }

/-- A plain no-branch thought for the C10 witness. -/
def thoughtW10 : Thought := { name := "w10" }

/-- A state already stamped for stage `w10` at time 5. -/
def stateW10 : BState := { processed := [("w10", 5)] }

/-- A matched state carrying a text message, for the C2 witness. -/
def stateMatchedW : BState := { message := some msgTextW, matched := true }

/-- A path with listen and act branches, for the C5 witness. -/
def pW5 : Path := { listen := [brW6], act := [brW6] }

/-- An unmatched state carrying a text message, for the C3 witness. -/
def stateUnmatchedW : BState := { message := some msgTextW }

/- Helper lemmas about the branch loop and the stamping step. -/

theorem stopLen_le (bs : List Branch) : ∀ b : BState, stopLen bs b ≤ bs.length := by
  induction bs with
  | nil => intro b; simp [stopLen]
  | cons br rest ih =>
    intro b
    cases h : b.done
    · simpa [stopLen, h] using Nat.succ_le_succ (ih (br.process b))
    · simp [stopLen, h]

theorem processBranches_eq (bs : List Branch) : ∀ b : BState,
    processBranches bs b =
      ((bs.take (stopLen bs b)).foldl branchStep b,
       (bs.take (stopLen bs b)).map Branch.id) := by
  induction bs with
  | nil => intro b; simp [processBranches, stopLen]
  | cons br rest ih =>
    intro b
    cases h : b.done
    · simp [processBranches, stopLen, h, List.take_succ_cons, List.foldl_cons,
        ih (br.process b), branchStep]
    · simp [processBranches, stopLen, h]

theorem processBranches_stop (bs : List Branch) : ∀ b : BState,
    stopLen bs b < bs.length →
    ((bs.take (stopLen bs b)).foldl branchStep b).done = true := by
  induction bs with
  | nil => intro b h; simp [stopLen] at h
  | cons br rest ih =>
    intro b h
    cases hd : b.done
    · rw [stopLen, if_neg (by simp [hd])] at h ⊢
      rw [List.take_succ_cons, List.foldl_cons]
      exact ih (br.process b) (Nat.lt_of_succ_lt_succ (by simpa using h))
    · simp [stopLen, hd]

theorem processBranches_go (bs : List Branch) : ∀ (b : BState) (i : Nat),
    i < stopLen bs b →
    ((bs.take i).foldl branchStep b).done = false := by
  induction bs with
  | nil => intro b i h; simp [stopLen] at h
  | cons br rest ih =>
    intro b i h
    cases hd : b.done
    · cases i with
      | zero => simpa using hd
      | succ j =>
        rw [stopLen, if_neg (by simp [hd])] at h
        rw [List.take_succ_cons, List.foldl_cons]
        exact ih (br.process b) j (Nat.lt_of_succ_lt_succ h)
    · simp [stopLen, hd] at h

theorem processBranches_processed (bs : List Branch) : ∀ b : BState,
    (∀ br ∈ bs, ∀ s : BState, (br.process s).processed = s.processed) →
    (processBranches bs b).1.processed = b.processed := by
  induction bs with
  | nil => intro b _; simp [processBranches]
  | cons br rest ih =>
    intro b hp
    cases hd : b.done
    · have h1 := ih (br.process b) (fun x hx s => hp x (List.mem_cons_of_mem br hx) s)
      have h2 := hp br (List.mem_cons_self br rest) b
      simp [processBranches, hd, h1, h2]
    · simp [processBranches, hd]

theorem stamp_lookup_stable (n : String) (now : Nat) (s : BState) (ts : Nat)
    (hl : s.processed.lookup n = some ts) (hts : ts ≠ 0) :
    stamp n now s = s := by
  unfold stamp
  rw [hl]
  simp [hts]

/-- A branch-bearing thought with the default (identity) action skips
without touching the state when `state.done` already holds. -/
theorem process_skip_done (t : Thought) (brs : List Branch) (now : Nat) (b : BState)
    (hbr : t.branches = some brs) (hact : t.action = fun _ s => s)
    (hdone : b.done = true) :
    (t.process now b).trace = [] ∧ (t.process now b).state = b := by
  unfold Thought.process
  cases hex : b.exit
  · rw [hbr]
    by_cases hlen : (brs.length == 0) = true
    · simp [hex, hlen, hact]
    · simp [hex, hlen, hdone, hact]
  · simp [hex]

/-- The hear process, rejected: its action runs `state.finish()`. -/
theorem hear_fail (mw : Middleware) (now : Nat) (b : BState)
    (hex : b.exit = false)
    (h : ((hearThought mw).process now b).acted = some false) :
    ((hearThought mw).process now b).state = ((mw b).1).finish ∧
    ((hearThought mw).process now b).state.done = true := by
  unfold Thought.process hearThought at h ⊢
  cases hm : (mw b).2
  · simp [hex, hm, BState.finish]
  · simp [hex, hm] at h

/-- C1: the claim states that under an engaged dialogue an unmatched run
restores the previous path, a matched run with an empty fresh path
closes the dialogue, and a matched run whose fresh path has branches
leaves it engaged.  Evaluating the source's postlude
(`if (!finalState.matched) dlg.revertPath() else if (dlg.path.hasBranches()) await dlg.close()`,
thought.ts lines 289-292) shows the matched cases are inverted: a
matched run whose callback ADDED a follow-up branch closes the
dialogue, a matched run that added none leaves it engaged, and only the
unmatched case (revert) behaves as claimed. -/
theorem receive_dialogue_matched_inverted :
    (thought.receive cfgNone mwOk mwOk 1 dpathEmpty (some dpathAdd) msgEnterW).dialogue
        = some DlgOutcome.closed ∧
    (thought.receive cfgNone mwOk mwOk 1 dpathEmpty (some dpathNoAdd) msgEnterW).dialogue
        = some DlgOutcome.engagedKept ∧
    (thought.receive cfgNone mwOk mwOk 1 dpathEmpty (some dpathEmpty) msgEnterW).dialogue
        = some DlgOutcome.reverted := by
  refine ⟨rfl, rfl, rfl⟩

/-- C7: the claim states every envelope string is sent (prefixed with
`@username ` when the room id does not contain the user id).  Evaluating
`Rocketchat.respond` for method `reply` (part_000 lines 100-110) shows
`envelope.strings` is rewritten with the prefix as claimed, but the
`for (let text in envelope.strings)` loop iterates array KEYS, so the
single payload actually sent to the room is the index string `0`, not
the envelope's string, in both the prefixed and the direct-room case. -/
theorem rocketchat_reply_sends_indices :
    Rocketchat.respondReply rcEnvW = some ⟨["@tester hello"], ["0"]⟩ ∧
    Rocketchat.respondReply rcEnvDMW = some ⟨["hello"], ["0"]⟩ := by
  refine ⟨rfl, rfl⟩

/-- C8: the claim states `find` returns exactly the elements on which
every parameter key matches.  Evaluating `Mongo.find` (mongo.ts lines
119-132) on a two-element store and a two-key parameter mapping shows
the local filter keeps an element that differs on the first key and
agrees only on the last (`match` is overwritten on every loop
iteration), while `findOne` (lines 135-143) returns the first fully
matching element as claimed. -/
theorem mongo_find_last_key_only :
    Mongo.find [itemAB1, itemAB9] paramsAB = some [itemAB1, itemAB9] ∧
    elemMatchAll paramsAB itemAB9 = false ∧
    Mongo.findOne [itemAB1, itemAB9] paramsAB = some itemAB1 := by
  refine ⟨rfl, rfl, rfl⟩

/-- C3: the act stage's validate returns false exactly when a branch
already matched; otherwise it returns true after wrapping any present
message in a CatchAll of the original (thought.ts lines 214-218). -/
theorem act_validate_catch_all (b : BState) :
    (b.matched = true → actValidate b = (b, false)) ∧
    (b.matched = false →
      (actValidate b).2 = true ∧
      ∀ m, b.message = some m →
        (actValidate b).1.message = some (Message.catchAll m)) := by
  constructor
  · intro h; simp [actValidate, h]
  · intro h
    constructor
    · unfold actValidate
      rw [h]
      cases b.message <;> simp
    · intro m hm
      simp [actValidate, h, hm]

/-- C3 witness: on an unmatched state carrying a text message, validate
returns true and wraps the message. -/
theorem act_validate_catch_all_witness :
    (actValidate stateUnmatchedW).2 = true ∧
    (actValidate stateUnmatchedW).1.message = some (Message.catchAll msgTextW) :=
  ⟨((act_validate_catch_all stateUnmatchedW).2 rfl).1,
   ((act_validate_catch_all stateUnmatchedW).2 rfl).2 msgTextW rfl⟩

/-- C2: the remember stage's validate returns true exactly when a
storage adapter is configured and either a branch matched or an
envelope was dispatched; when matched, it first (regardless of the
adapter check) updates the user directory with the message's user
(thought.ts lines 242-252). -/
theorem remember_validate_spec (cfg : Config) (b : BState) :
    ((rememberValidate cfg b).2 = (cfg.storage && (b.matched || b.dispatchedEnvelope))) ∧
    (b.matched = true → ∀ m, b.message = some m →
      (rememberValidate cfg b).1.userDir
        = userById (Message.muser m).id (Message.muser m) b.userDir) ∧
    (b.matched = false → (rememberValidate cfg b).1.userDir = b.userDir) := by
  refine ⟨?_, ?_, ?_⟩
  · unfold rememberValidate
    cases hm : b.matched
    · cases hs : cfg.storage <;> cases hd : b.dispatchedEnvelope <;>
        simp [hm, hs, hd]
    · cases hmsg : b.message <;> cases hs : cfg.storage <;>
        simp [hm, hmsg, hs]
  · intro hm m hmsg
    unfold rememberValidate
    rw [hm, hmsg]
    cases hs : cfg.storage <;> simp [hs]
  · intro hm
    unfold rememberValidate
    rw [hm]
    cases hs : cfg.storage <;> cases hd : b.dispatchedEnvelope <;> simp [hs, hd]

/-- C2 witness: with a storage adapter and a matched state carrying a
text message, validate succeeds and the directory update is visible. -/
theorem remember_validate_spec_witness :
    (rememberValidate cfgStore stateMatchedW).2
        = (cfgStore.storage && (stateMatchedW.matched || stateMatchedW.dispatchedEnvelope)) ∧
    (rememberValidate cfgStore stateMatchedW).1.userDir
        = userById (Message.muser msgTextW).id (Message.muser msgTextW) stateMatchedW.userDir :=
  ⟨(remember_validate_spec cfgStore stateMatchedW).1,
   (remember_validate_spec cfgStore stateMatchedW).2.1 rfl msgTextW rfl⟩

/-- The JS-truthiness min-length guard lets a message through exactly
when every configured minimum is at most the trimmed length. -/
theorem minLenBlocks_false_iff (setting : Option Nat) (len : Nat) :
    minLenBlocks setting len = false ↔ ∀ n, setting = some n → n ≤ len := by
  cases setting with
  | none => simp [minLenBlocks]
  | some n =>
    constructor
    · intro h m hm
      injection hm with hm
      subst hm
      by_contra hlt
      push_neg at hlt
      have hn0 : n ≠ 0 := by omega
      simp [minLenBlocks, hn0, hlt] at h
    · intro h
      have hn := h n rfl
      have hnot : ¬ len < n := by omega
      simp [minLenBlocks, hnot]

/-- C4: the understand stage's validate succeeds exactly when an NLU
adapter exists, the message is Text with non-empty trimmed body, any
configured `nlu-min-length` is respected, and the adapter's raw result
is non-empty; on success the normalised result is attached to
`message.nlu` (thought.ts lines 188-211). -/
theorem understand_validate_spec (cfg : Config) (b : BState) :
    ((understandValidate cfg b).2 = true ↔
      ∃ ad u body mid n0 raw,
        cfg.nluAdapter = some ad ∧
        b.message = some (Message.text u body mid n0) ∧
        trimStr body ≠ "" ∧
        (∀ n, cfg.nluMinLength = some n → n ≤ (trimStr body).length) ∧
        ad.process (Message.text u body mid n0) = some raw ∧
        raw ≠ []) ∧
    (∀ ad u body mid n0 raw,
        cfg.nluAdapter = some ad →
        b.message = some (Message.text u body mid n0) →
        trimStr body ≠ "" →
        (∀ n, cfg.nluMinLength = some n → n ≤ (trimStr body).length) →
        ad.process (Message.text u body mid n0) = some raw →
        raw ≠ [] →
        (understandValidate cfg b).1.message
          = some (Message.text u body mid (some (nluAddResults raw)))) := by
  constructor
  · constructor
    · intro h
      unfold understandValidate at h
      cases had : cfg.nluAdapter with
      | none => rw [had] at h; simp at h
      | some ad =>
        cases hmsg : b.message with
        | none => rw [had, hmsg] at h; simp at h
        | some m =>
          cases m with
          | enter u mid => rw [had, hmsg] at h; simp at h
          | leave u mid => rw [had, hmsg] at h; simp at h
          | rich u mid => rw [had, hmsg] at h; simp at h
          | server u mid => rw [had, hmsg] at h; simp at h
          | catchAll m0 => rw [had, hmsg] at h; simp at h
          | text u body mid n0 =>
            rw [had, hmsg] at h
            by_cases htrim : trimStr body = ""
            · simp [htrim] at h
            · cases hmin : minLenBlocks cfg.nluMinLength (trimStr body).length
              · cases hproc : ad.process (Message.text u body mid n0) with
                | none => simp [htrim, hmin, hproc] at h
                | some raw =>
                  cases hraw : raw.isEmpty
                  · refine ⟨ad, u, body, mid, n0, raw, rfl, rfl, htrim,
                      (minLenBlocks_false_iff _ _).mp hmin, hproc, ?_⟩
                    intro hnil
                    subst hnil
                    simp at hraw
                  · simp [htrim, hmin, hproc, hraw] at h
              · simp [htrim, hmin] at h
    · rintro ⟨ad, u, body, mid, n0, raw, had, hmsg, htrim, hmin, hproc, hraw⟩
      have hminb : minLenBlocks cfg.nluMinLength (trimStr body).length = false :=
        (minLenBlocks_false_iff _ _).mpr hmin
      have hempty : raw.isEmpty = false := by
        cases raw with
        | nil => exact absurd rfl hraw
        | cons a l => rfl
      unfold understandValidate
      rw [had, hmsg]
      simp [htrim, hminb, hproc, hempty]
  · intro ad u body mid n0 raw had hmsg htrim hmin hproc hraw
    have hminb : minLenBlocks cfg.nluMinLength (trimStr body).length = false :=
      (minLenBlocks_false_iff _ _).mpr hmin
    have hempty : raw.isEmpty = false := by
      cases raw with
      | nil => exact absurd rfl hraw
      | cons a l => rfl
    unfold understandValidate
    rw [had, hmsg]
    simp [htrim, hminb, hproc, hempty]

/-- C4 witness: with an NLU adapter returning the raw key `intent` and
the text message `hello`, validate succeeds. -/
theorem understand_validate_spec_witness :
    (understandValidate cfgNlu stateUnmatchedW).2 = true := by
  refine (understand_validate_spec cfgNlu stateUnmatchedW).1.mpr
    ⟨nluAdapterW, userW, "hello", "m2", none, ["intent"], rfl, rfl, ?_, ?_, rfl, ?_⟩
  · decide
  · intro n hn
    cases hn
  · decide

/-- C5: in a receive run, when the hear stage fails its action runs
`state.finish()` (setting `done`), and every branch-bearing later stage
of the sequence — listen, understand, act — skips without evaluating a
single branch (thought.ts lines 86-95 and 177-180). -/
theorem hear_fail_skips_branches (cfg : Config) (mwHear mwRemember : Middleware)
    (now : Nat) (p : Path) (msg : Message)
    (h : (Thoughts.startReceive cfg mwHear mwRemember now p (stateCreate msg)).hearRes.acted
          = some false) :
    (Thoughts.startReceive cfg mwHear mwRemember now p (stateCreate msg)).hearRes.state.done
        = true ∧
    (Thoughts.startReceive cfg mwHear mwRemember now p (stateCreate msg)).listenRes.trace = [] ∧
    (Thoughts.startReceive cfg mwHear mwRemember now p (stateCreate msg)).understandRes.trace
        = [] ∧
    (Thoughts.startReceive cfg mwHear mwRemember now p (stateCreate msg)).actRes.trace = [] := by
  simp only [Thoughts.startReceive] at h ⊢
  have h1 := hear_fail mwHear now (stateCreate msg) rfl h
  have h2 := process_skip_done (listenThought p.listen) p.listen now
      ((hearThought mwHear).process now (stateCreate msg)).state rfl rfl h1.2
  refine ⟨h1.2, h2.1, ?_, ?_⟩
  · rw [h2.2]
    exact (process_skip_done _ _ now _ rfl rfl h1.2).1
  · rw [h2.2]
    have h3 := process_skip_done
        (understandThought cfg
          (if ((listenThought p.listen).process now
                ((hearThought mwHear).process now (stateCreate msg)).state).acted == some true
            then p.forcedUnderstand else p).understand)
        _ now ((hearThought mwHear).process now (stateCreate msg)).state rfl rfl h1.2
    rw [h3.2]
    exact (process_skip_done _ _ now _ rfl rfl h1.2).1

/-- C5 witness: a short-circuiting hear middleware on a path with
listen and act branches leaves every later branch unevaluated. -/
theorem hear_fail_skips_branches_witness :
    (Thoughts.startReceive cfgNone mwFail mwOk 1 pW5 (stateCreate msgTextW)).hearRes.state.done
        = true ∧
    (Thoughts.startReceive cfgNone mwFail mwOk 1 pW5 (stateCreate msgTextW)).listenRes.trace = [] ∧
    (Thoughts.startReceive cfgNone mwFail mwOk 1 pW5 (stateCreate msgTextW)).understandRes.trace
        = [] ∧
    (Thoughts.startReceive cfgNone mwFail mwOk 1 pW5 (stateCreate msgTextW)).actRes.trace = [] :=
  hear_fail_skips_branches cfgNone mwFail mwOk 1 pW5 msgTextW rfl

theorem assocSetNat_lookup (k : String) (v : Nat) : ∀ l : List (String × Nat),
    (assocSetNat k v l).lookup k = some v := by
  intro l
  induction l with
  | nil => simp [assocSetNat, List.lookup]
  | cons p rest ih =>
    obtain ⟨pk, pv⟩ := p
    by_cases h : pk = k
    · simp [assocSetNat, h, List.lookup]
    · have hne : (k == pk) = false := by
        simp [h, Ne.symm h]
      simp [assocSetNat, h, List.lookup, hne, ih]

/-- After `stamp`, the `processed` slot for that stage is present. -/
theorem stamp_lookup_isSome (n : String) (now : Nat) (s : BState) :
    ((stamp n now s).processed.lookup n).isSome = true := by
  unfold stamp
  cases hl : s.processed.lookup n with
  | none => simp [List.lookup]
  | some t =>
    by_cases ht : t = 0
    · simp [ht, assocSetNat_lookup]
    · simp [ht, hl]

/-- C6: for a stage with a non-empty branch collection whose entry
conditions hold (no exit, `done` not yet set, validate passes), the
branch loop evaluates branches in insertion order, stops exactly at the
first state where `done` holds, and the stage succeeds (timestamp
written, action(true)) precisely when `state.matched` holds after the
iteration (thought.ts lines 108-123). -/
theorem thought_branches_spec (t : Thought) (brs : List Branch) (b : BState) (now : Nat)
    (hbr : t.branches = some brs) (hne : brs ≠ [])
    (hex : b.exit = false) (hdn : b.done = false)
    (hval : (t.validate b).2 = true) :
    (t.process now b).acted = some (processBranches brs (t.validate b).1).1.matched ∧
    (t.process now b).trace = (processBranches brs (t.validate b).1).2 ∧
    (t.process now b).state =
      (if (processBranches brs (t.validate b).1).1.matched
        then t.action true (stamp t.name now (processBranches brs (t.validate b).1).1)
        else t.action false (processBranches brs (t.validate b).1).1) ∧
    (processBranches brs (t.validate b).1).2
      = (brs.take (stopLen brs (t.validate b).1)).map Branch.id ∧
    (processBranches brs (t.validate b).1).1
      = (brs.take (stopLen brs (t.validate b).1)).foldl branchStep (t.validate b).1 ∧
    (stopLen brs (t.validate b).1 < brs.length →
      ((brs.take (stopLen brs (t.validate b).1)).foldl branchStep (t.validate b).1).done
        = true) ∧
    (∀ i, i < stopLen brs (t.validate b).1 →
      ((brs.take i).foldl branchStep (t.validate b).1).done = false) ∧
    ((processBranches brs (t.validate b).1).1.matched = true →
      (((stamp t.name now (processBranches brs (t.validate b).1).1).processed.lookup
          t.name)).isSome = true) := by
  have hlen : (brs.length == 0) = false := by
    cases brs with
    | nil => exact absurd rfl hne
    | cons a l => rfl
  have heq := processBranches_eq brs (t.validate b).1
  refine ⟨?_, ?_, ?_, ?_, ?_, ?_, ?_, ?_⟩
  · unfold Thought.process
    rw [hex, hbr]
    simp only [Bool.false_eq_true, if_false, hlen, hdn, hval, if_true]
    cases hm : (processBranches brs (t.validate b).1).1.matched <;> simp [hm]
  · unfold Thought.process
    rw [hex, hbr]
    simp only [Bool.false_eq_true, if_false, hlen, hdn, hval, if_true]
    cases hm : (processBranches brs (t.validate b).1).1.matched <;> simp [hm]
  · unfold Thought.process
    rw [hex, hbr]
    simp only [Bool.false_eq_true, if_false, hlen, hdn, hval, if_true]
    cases hm : (processBranches brs (t.validate b).1).1.matched <;> simp [hm]
  · rw [heq]
  · rw [heq]
  · exact processBranches_stop brs (t.validate b).1
  · exact processBranches_go brs (t.validate b).1
  · intro _
    exact stamp_lookup_isSome t.name now (processBranches brs (t.validate b).1).1

/-- C6 witness: a stage with one always-matching branch, processed from
a fresh state, succeeds. -/
theorem thought_branches_spec_witness :
    (thoughtW6.process 3 ({} : BState)).acted = some true :=
  (thought_branches_spec thoughtW6 [brW6] {} 3 rfl (List.cons_ne_nil _ _) rfl rfl rfl).1

/-- C10: the stage timestamp, once set to a real (non-zero) time, is
never overwritten by a later pass of a stage with the same name (the
write is guarded by `if (!this.b.processed[this.name])`, thought.ts
lines 120-123); the stage's own validate, middleware, branches and
action do not touch the `processed` map. -/
theorem processed_written_once (t : Thought) (b : BState) (now ts : Nat)
    (hv : ∀ s : BState, ((t.validate s).1).processed = s.processed)
    (ha : ∀ (succ : Bool) (s : BState), (t.action succ s).processed = s.processed)
    (hm : ∀ s : BState, ((t.middleware s).1).processed = s.processed)
    (hb : ∀ brs, t.branches = some brs →
      ∀ br ∈ brs, ∀ s : BState, (br.process s).processed = s.processed)
    (hl : b.processed.lookup t.name = some ts) (hts : ts ≠ 0) :
    ((t.process now b).state.processed.lookup t.name) = some ts := by
  unfold Thought.process
  cases hex : b.exit
  · cases hbr : t.branches with
    | none =>
      cases hvv : (t.validate b).2
      · simp [hvv, ha, hv, hl]
      · cases hmm : (t.middleware (t.validate b).1).2
        · simp [hvv, hmm, ha, hm, hv, hl]
        · have hpl : ((t.middleware (t.validate b).1).1).processed.lookup t.name = some ts := by
            rw [hm, hv, hl]
          have hst := stamp_lookup_stable t.name now _ ts hpl hts
          simp [hvv, hmm, hst, ha, hm, hv, hl]
    | some brs =>
      have hbp : (processBranches brs (t.validate b).1).1.processed
          = (t.validate b).1.processed :=
        processBranches_processed brs (t.validate b).1 (hb brs hbr)
      cases hlen : brs.length == 0
      · cases hdn : b.done
        · cases hvv : (t.validate b).2
          · simp [hlen, hdn, hvv, ha, hv, hl]
          · cases hmt : (processBranches brs (t.validate b).1).1.matched
            · simp [hlen, hdn, hvv, hmt, ha, hbp, hv, hl]
            · have hpl : (processBranches brs (t.validate b).1).1.processed.lookup t.name
                  = some ts := by
                rw [hbp, hv, hl]
              have hst := stamp_lookup_stable t.name now _ ts hpl hts
              simp [hlen, hdn, hvv, hmt, hst, ha, hbp, hv, hl]
        · simp [hlen, hdn, ha, hl]
      · simp [hlen, ha, hl]
  · simp [hex, hl]

/-- C10 witness: a stage already stamped at time 5 keeps that timestamp
through another successful pass at time 9. -/
theorem processed_written_once_witness :
    ((thoughtW10.process 9 stateW10).state.processed.lookup thoughtW10.name) = some 5 :=
  processed_written_once thoughtW10 stateW10 9 5
    (fun _ => rfl) (fun _ _ => rfl) (fun _ => rfl)
    (fun _ hbrs => Option.noConfusion hbrs) rfl (by decide)

theorem memUpsert_notMem (k : String) (v : MemVal) : ∀ db : List (String × MemVal),
    k ∉ db.map Prod.fst → memUpsert k v db = db ++ [(k, v)] := by
  intro db
  induction db with
  | nil => intro _; rfl
  | cons p rest ih =>
    intro h
    have h1 : p.1 ≠ k := by
      intro he
      exact h (by simp [he])
    have h2 : k ∉ rest.map Prod.fst := by
      intro hk
      exact h (by simp [hk])
    simp [memUpsert, h1, ih h2]

theorem saveMemory_disjoint : ∀ (x db : List (String × MemVal)),
    (x.map Prod.fst).Nodup →
    (∀ k ∈ x.map Prod.fst, k ∉ db.map Prod.fst) →
    Mongo.saveMemory x db = db ++ x := by
  intro x
  induction x with
  | nil => intro db _ _; simp [Mongo.saveMemory]
  | cons kv rest ih =>
    intro db hnd hdisj
    have hk : kv.1 ∉ db.map Prod.fst := hdisj kv.1 (by simp)
    have hnd2 : (kv.1 :: rest.map Prod.fst).Nodup := by simpa using hnd
    have hhead : kv.1 ∉ rest.map Prod.fst := (List.nodup_cons.mp hnd2).1
    have step : Mongo.saveMemory (kv :: rest) db
        = Mongo.saveMemory rest (memUpsert kv.1 kv.2 db) := rfl
    rw [step, memUpsert_notMem kv.1 kv.2 db hk]
    have hdisj2 : ∀ k ∈ rest.map Prod.fst, k ∉ (db ++ [(kv.1, kv.2)]).map Prod.fst := by
      intro k hkr
      simp only [List.map_append, List.mem_append]
      rintro (hdb | hkv)
      · exact hdisj k (by simp [hkr]) hdb
      · have hk1 : k = kv.1 := by simpa using hkv
        subst hk1
        exact hhead hkr
    rw [ih (db ++ [(kv.1, kv.2)]) (List.nodup_cons.mp hnd2).2 hdisj2]
    simp

theorem loadMemory_rehydrate_eq : ∀ x : List (String × MemVal),
    (∀ p ∈ x, p.1 = "users" → ∃ m, p.2 = MemVal.users m) →
    Mongo.loadMemory x = x := by
  intro x
  induction x with
  | nil => intro _; rfl
  | cons p rest ih =>
    intro hus
    have hrest := ih (fun q hq => hus q (List.mem_cons_of_mem p hq))
    have hp : rehydrate p = p := by
      by_cases hk : p.1 = "users"
      · obtain ⟨m, hm⟩ := hus p (List.mem_cons_self p rest) hk
        obtain ⟨k, v⟩ := p
        simp only at hm hk
        subst hm
        subst hk
        simp [rehydrate, userCreate]
      · obtain ⟨k, v⟩ := p
        simp only at hk
        simp [rehydrate, hk]
    show rehydrate p :: Mongo.loadMemory rest = p :: rest
    rw [hp, hrest]

/-- C9: loading memory after saving it into an empty store is the
identity on any memory mapping (distinct sub names) whose `users` sub
holds a mapping of user records — the user records are rehydrated
through the User constructor and every other sub passes through
unchanged (mongo.ts lines 72-81 and 84-103). -/
theorem memory_round_trip (x : List (String × MemVal))
    (hnd : (x.map Prod.fst).Nodup)
    (hus : ∀ p ∈ x, p.1 = "users" → ∃ m, p.2 = MemVal.users m) :
    Mongo.loadMemory (Mongo.saveMemory x []) = x := by
  rw [saveMemory_disjoint x [] hnd (by intro k _ hk; simp at hk)]
  rw [List.nil_append]
  exact loadMemory_rehydrate_eq x hus

/-- C9 witness: a concrete two-sub memory mapping with one user record
round-trips unchanged. -/
theorem memory_round_trip_witness :
    Mongo.loadMemory (Mongo.saveMemory memW []) = memW := by
  refine memory_round_trip memW (by decide) ?_
  intro p hp hk
  simp only [memW, List.mem_cons, List.not_mem_nil, or_false] at hp
  rcases hp with rfl | rfl
  · exact ⟨_, rfl⟩
  · exact absurd hk (by decide)

end BBot
